import Mathlib

/-!
# Verification of the `recentlyused` XBEL parser

A shallow embedding of `dissect/target/plugins/os/unix/linux/recentlyused.py`:

* the timestamp normalizer `parse_ts`, which wraps
  `datetime.strptime(ts, "%Y-%m-%dT%H:%M:%S.%fZ")` and maps any
  `ValueError` to `None`;
* the extractor `parse_recently_used_xbel`, which walks every `bookmark`
  element of a parsed XBEL document and yields one primary record per
  bookmark followed by grouped icon and application records.

Modelling conventions:

* Python `datetime` values are a record of `Nat` components (the source
  never builds an aware datetime: `strptime` without `%z` yields a naive
  value, so no timezone enters the computation).
* CPython's `_strptime` matches each directive with a regex
  (`%Y` = `\d\d\d\d`, `%m` = `1[0-2]|0[1-9]|[1-9]`,
  `%d` = `3[0-1]|[1-2]\d|0[1-9]|[1-9]| [1-9]`, `%H` = `2[0-3]|[0-1]\d|\d`,
  `%M` = `[0-5]\d|\d`, `%S` = `6[0-1]|[0-5]\d|\d`, `%f` = `[0-9]{1,6}`),
  compiled with `IGNORECASE` (so the literals `T` and `Z` also match
  `t`/`z`), and requires the whole string to be consumed; the resulting
  fields then go through the `datetime` constructor, which enforces
  `1 <= year <= 9999`, `day <= days_in_month`, `second <= 59`.
  The pattern is compiled without `re.ASCII`, so `\d` also matches
  non-ASCII Unicode decimal digits; this embedding models the ASCII
  fragment of `\d`, and its timestamp theorem quantifying over
  arbitrary strings is scoped to ASCII input (`AsciiOnly`), on which
  the model is exact.
* The XML tree produced by `ElementTree.fromstring` is an inductive tree;
  the (external) byte-level XML parser is represented by its outcome, an
  `Option XElem` (`none` = `xml.etree.ElementTree.ParseError`, which the
  source catches).
* Python exceptions that the source does *not* catch are made explicit:
  `", ".join(gen)` raises `TypeError` when the generator yields `None`
  (an element whose `.text` is `None`), and this propagates out of the
  generator to the caller.  This is the `PyExn` component of the result.
* The module-level `log` object is write-only; log calls are modelled as
  an accumulated `List LogMsg`.  The `log.debug` call that accompanies
  each warning carries no further data relevant here and is folded into
  the same log entry.
-/

/-- A naive Python `datetime.datetime` value as produced by
`datetime.strptime` without `%z`: plain calendar components, no tzinfo. -/
structure PyDateTime where
  year : Nat
  month : Nat
  day : Nat
  hour : Nat
  minute : Nat
  second : Nat
  microsecond : Nat
deriving DecidableEq, Repr

/-- ASCII digit test: the effect of `\d` in the `_strptime` regexes on
ASCII input.  The pattern is compiled without `re.ASCII`, so on
non-ASCII input `\d` also matches other Unicode decimal digits; this
model does not enumerate those, and the timestamp theorem over
arbitrary strings is therefore scoped to ASCII input (`AsciiOnly`). -/
def isDig (c : Char) : Bool := 48 ≤ c.toNat && c.toNat ≤ 57

/-- Numeric value of an ASCII digit character. -/
def digitVal (c : Char) : Nat := c.toNat - 48

/-- Value of a digit string read most-significant-first. -/
def digitsVal (cs : List Char) : Nat := cs.foldl (fun n c => 10 * n + digitVal c) 0

/-- Directive `%Y`: exactly four digits (`\d\d\d\d`). -/
def parseYear : List Char → Option (Nat × List Char)
  | a :: b :: c :: d :: rest =>
    if isDig a ∧ isDig b ∧ isDig c ∧ isDig d then
      some (1000 * digitVal a + 100 * digitVal b + 10 * digitVal c + digitVal d, rest)
    else none
  | _ => none

/-- Directive `%m`: `1[0-2]|0[1-9]|[1-9]`. -/
def parseMonth : List Char → Option (Nat × List Char)
  | [] => none
  | [a] => if isDig a ∧ 1 ≤ digitVal a then some (digitVal a, []) else none
  | a :: b :: rest =>
    if a = '1' ∧ isDig b ∧ digitVal b ≤ 2 then some (10 + digitVal b, rest)
    else if a = '0' ∧ isDig b ∧ 1 ≤ digitVal b then some (digitVal b, rest)
    else if isDig a ∧ 1 ≤ digitVal a then some (digitVal a, b :: rest)
    else none

/-- Directive `%d`: `3[0-1]|[1-2]\d|0[1-9]|[1-9]| [1-9]` — the last
alternative is CPython's space-padded day; `int(" 2")` strips the
space and yields `2`. -/
def parseDay : List Char → Option (Nat × List Char)
  | [] => none
  | [a] => if isDig a ∧ 1 ≤ digitVal a then some (digitVal a, []) else none
  | a :: b :: rest =>
    if a = '3' ∧ (b = '0' ∨ b = '1') then some (30 + digitVal b, rest)
    else if (a = '1' ∨ a = '2') ∧ isDig b then some (10 * digitVal a + digitVal b, rest)
    else if a = '0' ∧ isDig b ∧ 1 ≤ digitVal b then some (digitVal b, rest)
    else if isDig a ∧ 1 ≤ digitVal a then some (digitVal a, b :: rest)
    else if a = ' ' ∧ isDig b ∧ 1 ≤ digitVal b then some (digitVal b, rest)
    else none

/-- Directive `%H`: `2[0-3]|[0-1]\d|\d`. -/
def parseHour : List Char → Option (Nat × List Char)
  | [] => none
  | [a] => if isDig a then some (digitVal a, []) else none
  | a :: b :: rest =>
    if a = '2' ∧ isDig b ∧ digitVal b ≤ 3 then some (20 + digitVal b, rest)
    else if (a = '0' ∨ a = '1') ∧ isDig b then some (10 * digitVal a + digitVal b, rest)
    else if isDig a then some (digitVal a, b :: rest)
    else none

/-- Directive `%M`: `[0-5]\d|\d`. -/
def parseMinute : List Char → Option (Nat × List Char)
  | [] => none
  | [a] => if isDig a then some (digitVal a, []) else none
  | a :: b :: rest =>
    if isDig a ∧ digitVal a ≤ 5 ∧ isDig b then some (10 * digitVal a + digitVal b, rest)
    else if isDig a then some (digitVal a, b :: rest)
    else none

/-- Directive `%S`: `6[0-1]|[0-5]\d|\d` (the regex admits leap seconds 60 and 61;
the `datetime` constructor rejects them afterwards). -/
def parseSecond : List Char → Option (Nat × List Char)
  | [] => none
  | [a] => if isDig a then some (digitVal a, []) else none
  | a :: b :: rest =>
    if a = '6' ∧ isDig b ∧ digitVal b ≤ 1 then some (60 + digitVal b, rest)
    else if isDig a ∧ digitVal a ≤ 5 ∧ isDig b then some (10 * digitVal a + digitVal b, rest)
    else if isDig a then some (digitVal a, b :: rest)
    else none

/-- Maximal munch of at most six digits for `%f` (`[0-9]{1,6}`); returns
accumulated value, number of digits consumed, and the remaining input.
Since the following literal `Z` is not a digit, greedy matching with
backtracking coincides with maximal munch here. -/
def takeFrac : Nat → Nat → List Char → Nat × Nat × List Char
  | acc, cnt, c :: rest =>
    if cnt < 6 ∧ isDig c then takeFrac (10 * acc + digitVal c) (cnt + 1) rest
    else (acc, cnt, c :: rest)
  | acc, cnt, [] => (acc, cnt, [])

/-- Directive `%f`: one to six digits, right-padded with zeros to microseconds
(`_strptime` does `s += "0" * (6 - len(s))`). -/
def parseFrac (cs : List Char) : Option (Nat × List Char) :=
  let r := takeFrac 0 0 cs
  if 1 ≤ r.2.1 then some (r.1 * 10 ^ (6 - r.2.1), r.2.2) else none

/-- A literal character of the format string (the non-alphabetic literals
`-`, `:`, `.` have no case variants). -/
def lit (c : Char) : List Char → Option (List Char)
  | d :: rest => if d = c then some rest else none
  | [] => none

/-- The literal `T`, matched case-insensitively (the `_strptime` pattern
is compiled with `re.IGNORECASE`). -/
def litT : List Char → Option (List Char)
  | d :: rest => if d = 'T' ∨ d = 't' then some rest else none
  | [] => none

/-- The literal `Z`, matched case-insensitively. -/
def litZ : List Char → Option (List Char)
  | d :: rest => if d = 'Z' ∨ d = 'z' then some rest else none
  | [] => none

/-- Gregorian leap-year rule used by `datetime`. -/
def isLeap (y : Nat) : Bool := y % 4 = 0 && (y % 100 ≠ 0 || y % 400 = 0)

/-- Table of `datetime` days in month. -/
def daysInMonth (y m : Nat) : Nat :=
  if m = 2 then (if isLeap y then 29 else 28)
  else if m = 4 ∨ m = 6 ∨ m = 9 ∨ m = 11 then 30
  else 31

/-- Model of `datetime.strptime(s, "%Y-%m-%dT%H:%M:%S.%fZ")`: the `_strptime`
regex match over the whole string followed by the `datetime` constructor's
range checks.  `none` stands for the `ValueError` that `strptime` raises
on any failure. -/
def strptime_xbel (s : String) : Option PyDateTime :=
  (parseYear s.data).bind fun p1 =>
  (lit '-' p1.2).bind fun r2 =>
  (parseMonth r2).bind fun p2 =>
  (lit '-' p2.2).bind fun r4 =>
  (parseDay r4).bind fun p3 =>
  (litT p3.2).bind fun r6 =>
  (parseHour r6).bind fun p4 =>
  (lit ':' p4.2).bind fun r8 =>
  (parseMinute r8).bind fun p5 =>
  (lit ':' p5.2).bind fun r10 =>
  (parseSecond r10).bind fun p6 =>
  (lit '.' p6.2).bind fun r12 =>
  (parseFrac r12).bind fun p7 =>
  (litZ p7.2).bind fun r14 =>
  if r14 = [] ∧ 1 ≤ p1.1 ∧ p3.1 ≤ daysInMonth p1.1 p2.1 ∧ p6.1 ≤ 59 then
    some ⟨p1.1, p2.1, p3.1, p4.1, p5.1, p6.1, p7.1⟩
  else none

/-- Function `parse_ts` from the source: `None` input propagates as `None`; a
`ValueError` from `strptime` is caught and collapsed to `None` (with a
warning logged, see `tsLog`). -/
def parse_ts : Option String → Option PyDateTime
  | none => none
  | some s => strptime_xbel s

example : parse_ts none = none := rfl
example : parse_ts (some "") = none := rfl
example : parse_ts (some "2023-01-02T03:04:05.123456Z") =
    some ⟨2023, 1, 2, 3, 4, 5, 123456⟩ := rfl
example : parse_ts (some "2023-01-02T03:04:05.1Z") =
    some ⟨2023, 1, 2, 3, 4, 5, 100000⟩ := rfl
example : parse_ts (some "2023-1-2T3:4:5.123456Z") =
    some ⟨2023, 1, 2, 3, 4, 5, 123456⟩ := rfl
example : parse_ts (some "2023-01- 2T03:04:05.123456Z") =
    some ⟨2023, 1, 2, 3, 4, 5, 123456⟩ := rfl
example : parse_ts (some "2023-01-02T03:04:05.123456") = none := rfl
example : parse_ts (some "2023-01-02T03:04:05Z") = none := rfl
example : parse_ts (some "2023-13-02T03:04:05.123456Z") = none := rfl
example : parse_ts (some "2023-02-29T03:04:05.123456Z") = none := rfl
example : parse_ts (some "2024-02-29T03:04:05.123456Z") =
    some ⟨2024, 2, 29, 3, 4, 5, 123456⟩ := rfl
example : parse_ts (some "2023-01-02T03:04:60.123456Z") = none := rfl
example : parse_ts (some "0000-01-02T03:04:05.123456Z") = none := rfl
example : parse_ts (some "2023-01-02t03:04:05.123456z") =
    some ⟨2023, 1, 2, 3, 4, 5, 123456⟩ := rfl
example : parse_ts (some "2023-01-02T03:04:05.1234567Z") = none := rfl
example : parse_ts (some "not-a-date") = none := rfl

/-- An `xml.etree.ElementTree.Element`: tag (with expanded
`\x7bnamespace-uri\x7dlocal` form for namespaced elements), attribute
list, text node and child elements. -/
inductive XElem where
  | mk (tag : String) (attrs : List (String × String)) (text : Option String)
      (children : List XElem)

/-- Tag of an element. -/
def XElem.tag : XElem → String
  | .mk t _ _ _ => t

/-- Attribute list of an element. -/
def XElem.attrs : XElem → List (String × String)
  | .mk _ a _ _ => a

/-- Text content of an element (`Element.text`, `None` when the element
has no text node). -/
def XElem.text : XElem → Option String
  | .mk _ _ tx _ => tx

/-- Child elements of an element. -/
def XElem.children : XElem → List XElem
  | .mk _ _ _ cs => cs

/-- Attribute lookup, `Element.get(key)`: `None` when absent. -/
def XElem.get (e : XElem) (key : String) : Option String :=
  (e.attrs.find? fun p => p.1 == key).map (·.2)

/-- Children with a given (expanded) tag; one step of a `findall` path. -/
def XElem.childrenNamed (e : XElem) (t : String) : List XElem :=
  e.children.filter fun c => c.tag == t

/-- Model of `Element.findall("./a/b/...")` with the path already
namespace-expanded: chain child selection level by level, preserving
document order. -/
def findPath (e : XElem) : List String → List XElem
  | [] => [e]
  | t :: ts => (e.childrenNamed t).flatMap fun c => findPath c ts

mutual

/-- Model of `Element.iter(tag)`: the element itself and all its
descendants carrying `tag`, in document (depth-first, preorder) order. -/
def iterTag (t : String) : XElem → List XElem
  | .mk tg at_ tx cs =>
    (if tg = t then [XElem.mk tg at_ tx cs] else []) ++ iterTagList t cs

/-- Helper of `iterTag` over a child list. -/
def iterTagList (t : String) : List XElem → List XElem
  | [] => []
  | c :: cs => iterTag t c ++ iterTagList t cs

end

/-- Expanded tag of `bookmark:groups` (namespace
`http://www.freedesktop.org/standards/desktop-bookmarks`). -/
def groupsTag : String :=
  "\x7bhttp://www.freedesktop.org/standards/desktop-bookmarks\x7dgroups"

/-- Expanded tag of `bookmark:group`. -/
def groupTag : String :=
  "\x7bhttp://www.freedesktop.org/standards/desktop-bookmarks\x7dgroup"

/-- Expanded tag of `bookmark:private`. -/
def privateTag : String :=
  "\x7bhttp://www.freedesktop.org/standards/desktop-bookmarks\x7dprivate"

/-- Expanded tag of `bookmark:icon`. -/
def iconTag : String :=
  "\x7bhttp://www.freedesktop.org/standards/desktop-bookmarks\x7dicon"

/-- Expanded tag of `bookmark:applications`. -/
def applicationsTag : String :=
  "\x7bhttp://www.freedesktop.org/standards/desktop-bookmarks\x7dapplications"

/-- Expanded tag of `bookmark:application`. -/
def applicationTag : String :=
  "\x7bhttp://www.freedesktop.org/standards/desktop-bookmarks\x7dapplication"

/-- Expanded tag of `mime:mime-type` (namespace
`http://www.freedesktop.org/standards/shared-mime-info`). -/
def mimeTypeTag : String :=
  "\x7bhttp://www.freedesktop.org/standards/shared-mime-info\x7dmime-type"

/-- Path of `./info/metadata/mime:mime-type`. -/
def mimePath : List String := ["info", "metadata", mimeTypeTag]

/-- Path of `./info/metadata/bookmark:groups/bookmark:group`. -/
def groupPath : List String := ["info", "metadata", groupsTag, groupTag]

/-- Path of `./info/metadata/bookmark:private`. -/
def privatePath : List String := ["info", "metadata", privateTag]

/-- Path of `./info/metadata/bookmark:icon`. -/
def iconPath : List String := ["info", "metadata", iconTag]

/-- Path of `./info/metadata/bookmark:applications/bookmark:application`. -/
def appPath : List String := ["info", "metadata", applicationsTag, applicationTag]

/-- A Python exception escaping the generator uncaught.  `typeError` is
what `", ".join(...)` raises when the generator yields a non-string
(`None` from `group.text`). -/
inductive PyExn where
  | typeError
deriving DecidableEq, Repr

/-- A log event: the `log.warning` for an unparseable file (identifying
the file), or the `log.warning` for an unparseable timestamp
(identifying the raw string).  Each is accompanied in the source by a
`log.debug` with the exception detail, folded into the same entry. -/
inductive LogMsg where
  | parseWarning (path : String)
  | tsWarning (raw : String)
deriving DecidableEq, Repr

/-- The `unix/linux/recently_used` record (descriptor fields in source
order).  The Python field `private` is a Lean keyword, hence the
quoted name. -/
structure RecentlyUsedRecord where
  ts : Option PyDateTime
  user : String
  source : String
  href : Option String
  added : Option PyDateTime
  modified : Option PyDateTime
  visited : Option PyDateTime
  mimetype : Option String
  groups : String
  «private» : Bool
deriving DecidableEq, Repr

/-- The `unix/linux/recently_used_icon` record. -/
structure RecentlyUsedIconRecord where
  type : Option String
  href : Option String
  name : Option String
deriving DecidableEq, Repr

/-- The `unix/linux/recently_used_application` record.  `count` is the
raw attribute string, unvalidated at parse time. -/
structure RecentlyUsedApplicationRecord where
  ts : Option PyDateTime
  name : Option String
  exec : Option String
  count : Option String
deriving DecidableEq, Repr

/-- One item yielded by the generator: a bare primary record, or a
`GroupedRecord` pairing the owning primary record with an icon or an
application record. -/
inductive RUItem where
  | primary (r : RecentlyUsedRecord)
  | groupedIcon (r : RecentlyUsedRecord) (icon : RecentlyUsedIconRecord)
  | groupedApp (r : RecentlyUsedRecord) (app : RecentlyUsedApplicationRecord)
deriving DecidableEq, Repr

/-- Projection to the primary record, `none` on grouped items. -/
def primaryRec : RUItem → Option RecentlyUsedRecord
  | .primary r => some r
  | _ => none

/-- Iterating `", ".join(group.text for group in groups)`: each `None`
text raises `TypeError`; otherwise the list of strings is collected. -/
def collectTexts : List (Option String) → Except PyExn (List String)
  | [] => .ok []
  | none :: _ => .error .typeError
  | some s :: rest => (collectTexts rest).map (s :: ·)

/-- Model of `", ".join(texts)` over the (possibly `None`) text contents. -/
def joinTexts (ts : List (Option String)) : Except PyExn String :=
  (collectTexts ts).map (String.intercalate ", ")

/-- Log events produced by one `parse_ts` call: a warning with the raw
string when a non-`None` input fails to parse. -/
def tsLog : Option String → List LogMsg
  | none => []
  | some s => match strptime_xbel s with
    | some _ => []
    | none => [.tsWarning s]

/-- Computation of the `mimetype` field:
`mimetypes = b.findall("./info/metadata/mime:mime-type", ns)`, then the
`type` attribute of the unique match, `None` unless exactly one. -/
def bookmarkMimetype (b : XElem) : Option String :=
  let mimetypes := findPath b mimePath
  if !mimetypes.isEmpty && mimetypes.length == 1 then
    mimetypes.head?.bind fun m => m.get "type"
  else none

/-- Computation of the group join
(`b.findall("./info/metadata/bookmark:groups/bookmark:group", ns)` then
`", ".join(group.text for group in groups)`), which raises `TypeError`
when some group has no text. -/
def bookmarkGroups (b : XElem) : Except PyExn String :=
  joinTexts ((findPath b groupPath).map XElem.text)

/-- Computation of the `private` field:
`len(b.findall("./info/metadata/bookmark:private", ns)) > 0`. -/
def bookmarkPrivateFlag (b : XElem) : Bool :=
  (findPath b privatePath).length > 0

/-- The `RecentlyUsedRecord(...)` constructor call for one bookmark,
after the group join succeeded with `group_list`. -/
def bookmarkRecord (username source : String) (b : XElem) (group_list : String) :
    RecentlyUsedRecord :=
  { ts := parse_ts (b.get "visited")
    user := username
    source := source
    href := b.get "href"
    added := parse_ts (b.get "added")
    modified := parse_ts (b.get "modified")
    visited := parse_ts (b.get "visited")
    mimetype := bookmarkMimetype b
    groups := group_list
    «private» := bookmarkPrivateFlag b }

/-- Grouped icon items of one bookmark, in document order of
`./info/metadata/bookmark:icon`. -/
def bookmarkIconItems (cur : RecentlyUsedRecord) (b : XElem) : List RUItem :=
  (findPath b iconPath).map fun icon =>
    RUItem.groupedIcon cur
      { type := icon.get "type", href := icon.get "href", name := icon.get "name" }

/-- Grouped application items of one bookmark, in document order of
`./info/metadata/bookmark:applications/bookmark:application`. -/
def bookmarkAppItems (cur : RecentlyUsedRecord) (b : XElem) : List RUItem :=
  (findPath b appPath).map fun app =>
    RUItem.groupedApp cur
      { ts := parse_ts (app.get "modified"), name := app.get "name"
        exec := app.get "exec", count := app.get "count" }

/-- Log events of one successfully processed bookmark: the four
`parse_ts` calls of the record constructor (`visited`, `added`,
`modified`, `visited` again) followed by one per application. -/
def bookmarkLogs (b : XElem) : List LogMsg :=
  tsLog (b.get "visited") ++ tsLog (b.get "added") ++ tsLog (b.get "modified") ++
    tsLog (b.get "visited") ++
    (findPath b appPath).flatMap fun app => tsLog (app.get "modified")

/-- Processing of one `bookmark` element of the `for b in
et.iter("bookmark")` loop: when the group join raises, nothing is
yielded for this bookmark and the exception escapes; otherwise the
primary record is yielded first, then the grouped icon records, then
the grouped application records. -/
def processBookmark (username source : String) (b : XElem) :
    List RUItem × List LogMsg × Option PyExn :=
  match bookmarkGroups b with
  | .error e => ([], [], some e)
  | .ok group_list =>
    let cur := bookmarkRecord username source b group_list
    (RUItem.primary cur :: (bookmarkIconItems cur b ++ bookmarkAppItems cur b),
      bookmarkLogs b, none)

/-- The bookmark loop as driven by the consumer of the generator: items
already yielded survive an exception raised while processing a later
bookmark. -/
def runBookmarks (username source : String) :
    List XElem → List RUItem × List LogMsg × Option PyExn
  | [] => ([], [], none)
  | b :: bs =>
    match processBookmark username source b with
    | (items, logs, some e) => (items, logs, some e)
    | (items, logs, none) =>
      match runBookmarks username source bs with
      | (items2, logs2, err2) => (items ++ items2, logs ++ logs2, err2)

/-- Model of `parse_recently_used_xbel(target, username, xbel_file)`:
the XML parse outcome is passed in as `parsed` (`none` = the
`ParseError` the source catches, answered by a warning naming the file
and an empty yield; `some et` = the parsed tree).  The result is the
sequence of yielded items, the log events, and the uncaught exception,
if any, that terminates the generator early. -/
def parse_recently_used_xbel (username source : String) (parsed : Option XElem) :
    List RUItem × List LogMsg × Option PyExn :=
  match parsed with
  | none => ([], [LogMsg.parseWarning source], none)
  | some et => runBookmarks username source (iterTag "bookmark" et)

/-- Group string of a bookmark whose join succeeds (used to name the
record the extractor emits for a bookmark). -/
def okGroups (b : XElem) : String :=
  match bookmarkGroups b with
  | .ok g => g
  | .error _ => ""

/-- The primary record the extractor emits for bookmark `b` (meaningful
when `bookmarkGroups b` succeeds). -/
def emittedRecord (username source : String) (b : XElem) : RecentlyUsedRecord :=
  bookmarkRecord username source b (okGroups b)

/-- A rich sample bookmark: `href`, three timestamp attributes (one
unparseable), one mime-type, two groups with text, one icon, two
applications. -/
def bm1 : XElem :=
  .mk "bookmark"
    [("href", "http://example.com"), ("added", "2023-01-01T00:00:00.000000Z"),
     ("modified", "not-a-date"), ("visited", "2023-01-02T03:04:05.123456Z")]
    none
    [.mk "info" [] none
      [.mk "metadata" [] none
        [.mk mimeTypeTag [("type", "text/html")] none [],
         .mk groupsTag [] none
           [.mk groupTag [] (some "a") [], .mk groupTag [] (some "b") []],
         .mk iconTag [("href", "icon.png")] none [],
         .mk applicationsTag [] none
           [.mk applicationTag
              [("name", "app1"), ("exec", "x1"), ("count", "1"),
               ("modified", "2023-01-02T03:04:05.123456Z")] none [],
            .mk applicationTag [("name", "app2")] none []]]]]

/-- A minimal sample bookmark: no attributes, no metadata. -/
def bm2 : XElem := .mk "bookmark" [] none []

/-- A sample bookmark with two `bookmark:private` markers. -/
def bmPriv : XElem :=
  .mk "bookmark" [] none
    [.mk "info" [] none
      [.mk "metadata" [] none [.mk privateTag [] none [], .mk privateTag [] none []]]]

/-- A sample well-formed document with two bookmarks. -/
def sampleDoc : XElem := .mk "xbel" [("version", "1.0")] none [bm1, bm2]

/-- A well-formed document whose single bookmark has a
`bookmark:group` element without text content (`<bookmark:group/>`,
whose `Element.text` is `None`): the group join raises `TypeError`. -/
def crashDoc : XElem :=
  .mk "xbel" [] none
    [.mk "bookmark" [("href", "file:///tmp/x")] none
      [.mk "info" [] none
        [.mk "metadata" [] none
          [.mk groupsTag [] none [.mk groupTag [] none []]]]]]

/-- A second document with a textless group element, preceded by a sound
bookmark (exercising the early items surviving the crash). -/
def crashDoc2 : XElem :=
  .mk "xbel" [] none
    [.mk "bookmark" [("href", "file:///tmp/ok")] none [],
     .mk "bookmark" [("href", "file:///tmp/bad")] none
      [.mk "info" [] none
        [.mk "metadata" [] none
          [.mk groupsTag [] none [.mk groupTag [] none []]]]]]

example : (parse_recently_used_xbel "u" "s" (some sampleDoc)).1.length = 5 := rfl
example : (parse_recently_used_xbel "u" "s" (some sampleDoc)).2.2 = none := rfl
example : (parse_recently_used_xbel "u" "s" (some sampleDoc)).2.1
    = [LogMsg.tsWarning "not-a-date"] := rfl
example : (parse_recently_used_xbel "u" "s" (some sampleDoc)).1.filterMap primaryRec
    = [emittedRecord "u" "s" bm1, emittedRecord "u" "s" bm2] := rfl
example : (emittedRecord "u" "s" bm1).groups = "a, b" := rfl
example : (emittedRecord "u" "s" bm1).mimetype = some "text/html" := rfl
example : (emittedRecord "u" "s" bm1).added = some ⟨2023, 1, 1, 0, 0, 0, 0⟩ := rfl
example : (emittedRecord "u" "s" bm1).modified = none := rfl
example : (emittedRecord "u" "s" bm2).groups = "" := rfl
example : (emittedRecord "u" "s" bm2).«private» = false := rfl
example : (parse_recently_used_xbel "u" "s" (some crashDoc)).1 = [] := rfl
example : (parse_recently_used_xbel "u" "s" (some crashDoc)).2.2
    = some PyExn.typeError := rfl
example : (parse_recently_used_xbel "u" "s" (some crashDoc2)).1
    = [RUItem.primary (emittedRecord "u" "s" (XElem.mk "bookmark"
        [("href", "file:///tmp/ok")] none []))] := rfl

/-- Equation of `processBookmark` when the group join succeeds. -/
theorem processBookmark_ok (u s : String) (b : XElem) (g : String)
    (hg : bookmarkGroups b = .ok g) :
    processBookmark u s b =
      (RUItem.primary (bookmarkRecord u s b g) ::
        (bookmarkIconItems (bookmarkRecord u s b g) b ++
          bookmarkAppItems (bookmarkRecord u s b g) b),
       bookmarkLogs b, none) := by
  simp [processBookmark, hg]

/-- Equation of `processBookmark` when the group join raises. -/
theorem processBookmark_err (u s : String) (b : XElem) (e : PyExn)
    (hg : bookmarkGroups b = .error e) :
    processBookmark u s b = ([], [], some e) := by
  simp [processBookmark, hg]

/-- A bookmark is processed without an exception iff its group join
succeeds. -/
theorem processBookmark_err_none_iff (u s : String) (b : XElem) :
    (processBookmark u s b).2.2 = none ↔ ∃ g, bookmarkGroups b = .ok g := by
  cases hg : bookmarkGroups b with
  | ok g => simp [processBookmark_ok u s b g hg]
  | error e => simp [processBookmark_err u s b e hg]

/-- Any primary record among the items of one bookmark is the record
constructed for that bookmark (the grouped items are never primary). -/
theorem mem_primary_processBookmark {u s : String} {b : XElem}
    {r : RecentlyUsedRecord}
    (h : RUItem.primary r ∈ (processBookmark u s b).1) :
    ∃ g, bookmarkGroups b = .ok g ∧ r = bookmarkRecord u s b g := by
  cases hg : bookmarkGroups b with
  | error e => rw [processBookmark_err u s b e hg] at h; simp at h
  | ok g =>
    refine ⟨g, rfl, ?_⟩
    rw [processBookmark_ok u s b g hg] at h
    simp only [List.mem_cons, List.mem_append, RUItem.primary.injEq] at h
    rcases h with h | h | h
    · exact h
    · exfalso; simp [bookmarkIconItems] at h
    · exfalso; simp [bookmarkAppItems] at h

/-- Equation of `runBookmarks` on a cons whose head bookmark processes
cleanly. -/
theorem runBookmarks_cons_ok (u s : String) (b : XElem) (bs : List XElem)
    (h : (processBookmark u s b).2.2 = none) :
    runBookmarks u s (b :: bs) =
      ((processBookmark u s b).1 ++ (runBookmarks u s bs).1,
       (processBookmark u s b).2.1 ++ (runBookmarks u s bs).2.1,
       (runBookmarks u s bs).2.2) := by
  rcases hp : processBookmark u s b with ⟨items, logs, err⟩
  rw [hp] at h
  simp only at h
  subst h
  rcases hq : runBookmarks u s bs with ⟨items2, logs2, err2⟩
  simp [runBookmarks, hp, hq]

/-- Equation of `runBookmarks` on a cons whose head bookmark raises. -/
theorem runBookmarks_cons_err (u s : String) (b : XElem) (bs : List XElem)
    (e : PyExn) (h : (processBookmark u s b).2.2 = some e) :
    runBookmarks u s (b :: bs) =
      ((processBookmark u s b).1, (processBookmark u s b).2.1, some e) := by
  rcases hp : processBookmark u s b with ⟨items, logs, err⟩
  rw [hp] at h
  simp only at h
  subst h
  simp [runBookmarks, hp]

/-- Any primary record of the loop's output belongs to the items of one
of the looped-over bookmarks. -/
theorem mem_primary_runBookmarks {u s : String} {r : RecentlyUsedRecord} :
    ∀ {bs : List XElem}, RUItem.primary r ∈ (runBookmarks u s bs).1 →
      ∃ b ∈ bs, RUItem.primary r ∈ (processBookmark u s b).1
  | [], h => by simp [runBookmarks] at h
  | b :: bs, h => by
    cases he : (processBookmark u s b).2.2 with
    | some e =>
      rw [runBookmarks_cons_err u s b bs e he] at h
      exact ⟨b, List.mem_cons_self b bs, h⟩
    | none =>
      rw [runBookmarks_cons_ok u s b bs he] at h
      rcases List.mem_append.mp h with h | h
      · exact ⟨b, List.mem_cons_self b bs, h⟩
      · obtain ⟨b', hb', hmem⟩ := mem_primary_runBookmarks h
        exact ⟨b', List.mem_cons_of_mem b hb', hmem⟩

/-- When the whole loop finishes without an exception, every looped-over
bookmark processed cleanly. -/
theorem runBookmarks_ok_all {u s : String} :
    ∀ {bs : List XElem}, (runBookmarks u s bs).2.2 = none →
      ∀ b ∈ bs, (processBookmark u s b).2.2 = none
  | [], _, b, hb => absurd hb (List.not_mem_nil b)
  | b :: bs, h, b', hb' => by
    cases he : (processBookmark u s b).2.2 with
    | some e => rw [runBookmarks_cons_err u s b bs e he] at h; simp at h
    | none =>
      rw [runBookmarks_cons_ok u s b bs he] at h
      rcases List.mem_cons.mp hb' with rfl | hb'
      · exact he
      · exact runBookmarks_ok_all h b' hb'

/-- When the whole loop finishes without an exception, its items are the
concatenation of the per-bookmark items, in loop order. -/
theorem runBookmarks_eq_flatMap {u s : String} :
    ∀ {bs : List XElem}, (runBookmarks u s bs).2.2 = none →
      (runBookmarks u s bs).1 = bs.flatMap fun b => (processBookmark u s b).1
  | [], _ => by simp [runBookmarks]
  | b :: bs, h => by
    cases he : (processBookmark u s b).2.2 with
    | some e => rw [runBookmarks_cons_err u s b bs e he] at h; simp at h
    | none =>
      rw [runBookmarks_cons_ok u s b bs he] at h ⊢
      rw [List.flatMap_cons, runBookmarks_eq_flatMap h]

/-- Successful `collectTexts` means every text was present, and the
collected list is exactly those texts. -/
theorem collectTexts_ok :
    ∀ {ts : List (Option String)} {l : List String}, collectTexts ts = .ok l →
      l = ts.filterMap id ∧ ∀ x ∈ ts, x.isSome
  | [], l, h => by
    simp only [collectTexts, Except.ok.injEq] at h
    simp [← h]
  | none :: ts, l, h => by simp [collectTexts] at h
  | some s :: ts, l, h => by
    simp only [collectTexts, Except.map] at h
    cases hc : collectTexts ts with
    | error e => rw [hc] at h; simp at h
    | ok l' =>
      rw [hc] at h
      simp only [Except.ok.injEq] at h
      obtain ⟨hl', hall⟩ := collectTexts_ok hc
      subst hl'
      constructor
      · simp [← h]
      · intro x hx
        rcases List.mem_cons.mp hx with rfl | hx
        · rfl
        · exact hall x hx

/-- The group string of a successful join is the `", "`-join of the
texts present, in document order. -/
theorem bookmarkGroups_ok {b : XElem} {g : String}
    (hg : bookmarkGroups b = .ok g) :
    g = String.intercalate ", " ((findPath b groupPath).filterMap XElem.text) := by
  unfold bookmarkGroups joinTexts at hg
  cases hc : collectTexts ((findPath b groupPath).map XElem.text) with
  | error e => rw [hc] at hg; simp [Except.map] at hg
  | ok l =>
    rw [hc] at hg
    simp only [Except.map, Except.ok.injEq] at hg
    obtain ⟨hl, -⟩ := collectTexts_ok hc
    rw [← hg, hl, List.filterMap_map, Function.id_comp]

/-- Value of `okGroups` when the join succeeds. -/
theorem okGroups_eq {b : XElem} {g : String} (hg : bookmarkGroups b = .ok g) :
    okGroups b = g := by
  simp [okGroups, hg]

/-- C1: the claim states that `parse_recently_used_xbel` never raises to
the caller — every failure degrades to fewer or emptier records.  The
code violates this: on a well-formed document whose bookmark carries a
`bookmark:group` element without text content (`Element.text` is
`None`), the expression `", ".join(group.text for group in groups)`
raises an uncaught `TypeError` which propagates out of the generator.
This theorem evaluates the extractor at that failing input: the error
component of the outcome is the uncaught exception. -/
theorem C1_join_crash :
    (parse_recently_used_xbel "user" "/home/user/.local/share/recently-used.xbel"
        (some crashDoc)).2.2 = some PyExn.typeError := rfl

/-- C5: for every bookmark element and every primary record the
extractor emits for it, the `mimetype` field is the `type` attribute of
the unique `mime:mime-type` metadata element when exactly one exists,
and `none` when zero or several exist. -/
theorem C5_mimetype (u src : String) (b : XElem) (r : RecentlyUsedRecord)
    (hr : RUItem.primary r ∈ (processBookmark u src b).1) :
    ((findPath b mimePath).length = 1 →
      r.mimetype = (findPath b mimePath).head?.bind fun m => m.get "type")
  ∧ ((findPath b mimePath).length ≠ 1 → r.mimetype = none) := by
  obtain ⟨g, -, rfl⟩ := mem_primary_processBookmark hr
  constructor
  · intro h1
    obtain ⟨m, hm⟩ := List.length_eq_one.mp h1
    simp [bookmarkRecord, bookmarkMimetype, hm]
  · intro h1
    have hfalse : ((findPath b mimePath).length == 1) = false := by
      simpa using h1
    simp [bookmarkRecord, bookmarkMimetype, hfalse]

/-- Witness for C5 at a concrete bookmark with exactly one mime-type
element. -/
theorem C5_mimetype_witness : (emittedRecord "u" "s" bm1).mimetype = some "text/html" :=
  ((C5_mimetype "u" "s" bm1 (emittedRecord "u" "s" bm1) (by decide)).1 (by decide)).trans rfl

/-- C6: for every bookmark element and every primary record the
extractor emits for it, the `groups` field is the text contents of its
`bookmark:group` metadata elements, in document order, joined with
`", "`; zero group elements give the empty string. -/
theorem C6_groups (u src : String) (b : XElem) (r : RecentlyUsedRecord)
    (hr : RUItem.primary r ∈ (processBookmark u src b).1) :
    r.groups = String.intercalate ", " ((findPath b groupPath).filterMap XElem.text)
  ∧ (findPath b groupPath = [] → r.groups = "") := by
  obtain ⟨g, hg, rfl⟩ := mem_primary_processBookmark hr
  have hmain : (bookmarkRecord u src b g).groups
      = String.intercalate ", " ((findPath b groupPath).filterMap XElem.text) := by
    have := bookmarkGroups_ok hg
    simp [bookmarkRecord, this]
  refine ⟨hmain, fun hnil => ?_⟩
  rw [hmain, hnil]
  rfl

/-- Witness for C6 at a concrete bookmark with two group elements. -/
theorem C6_groups_witness : (emittedRecord "u" "s" bm1).groups = "a, b" :=
  ((C6_groups "u" "s" bm1 (emittedRecord "u" "s" bm1) (by decide)).1).trans rfl

/-- C7: for every bookmark element and every primary record the
extractor emits for it, the `private` field is true iff at least one
`bookmark:private` metadata element exists (zero give false; one, two
or more all give true). -/
theorem C7_private_flag (u src : String) (b : XElem) (r : RecentlyUsedRecord)
    (hr : RUItem.primary r ∈ (processBookmark u src b).1) :
    r.«private» = true ↔ 1 ≤ (findPath b privatePath).length := by
  obtain ⟨g, -, rfl⟩ := mem_primary_processBookmark hr
  simp only [bookmarkRecord, bookmarkPrivateFlag]
  constructor
  · intro h
    have := of_decide_eq_true h
    omega
  · intro h
    exact decide_eq_true (by omega)

/-- Witness for C7 at a concrete bookmark with two private markers. -/
theorem C7_private_flag_witness : (emittedRecord "u" "s" bmPriv).«private» = true :=
  (C7_private_flag "u" "s" bmPriv (emittedRecord "u" "s" bmPriv) (by decide)).mpr
    (by decide)

/-- C9: extraction is deterministic and isolated — two invocations on
identical content, user and path produce identical outcomes.  In this
embedding the extractor is a pure function of its three inputs, which
is faithful to the source: apart from its arguments it reads only the
module-level constants `ns` (a fixed dictionary) and `log` (write-only),
and it caches nothing across invocations. -/
theorem C9_deterministic (u1 u2 s1 s2 : String) (p1 p2 : Option XElem)
    (hu : u1 = u2) (hs : s1 = s2) (hp : p1 = p2) :
    parse_recently_used_xbel u1 s1 p1 = parse_recently_used_xbel u2 s2 p2 := by
  subst hu hs hp
  rfl

/-- Witness for C9 at a concrete document. -/
theorem C9_deterministic_witness :
    parse_recently_used_xbel "u" "s" (some sampleDoc)
      = parse_recently_used_xbel "u" "s" (some sampleDoc) :=
  C9_deterministic "u" "u" "s" "s" (some sampleDoc) (some sampleDoc) rfl rfl rfl

/-- C10: in every primary record the extractor emits, `ts` equals
`visited` — both are `parse_ts` of the same `visited` attribute. -/
theorem C10_ts_eq_visited (u src : String) (parsed : Option XElem)
    (r : RecentlyUsedRecord)
    (hr : RUItem.primary r ∈ (parse_recently_used_xbel u src parsed).1) :
    r.ts = r.visited := by
  cases parsed with
  | none => simp [parse_recently_used_xbel] at hr
  | some et =>
    simp only [parse_recently_used_xbel] at hr
    obtain ⟨b, -, hb⟩ := mem_primary_runBookmarks hr
    obtain ⟨g, -, rfl⟩ := mem_primary_processBookmark hb
    rfl

/-- Witness for C10 at a concrete document. -/
theorem C10_ts_eq_visited_witness :
    (emittedRecord "u" "s" bm1).ts = (emittedRecord "u" "s" bm1).visited :=
  C10_ts_eq_visited "u" "s" (some sampleDoc) (emittedRecord "u" "s" bm1) (by decide)

/-- Primary-record projection of one cleanly processed bookmark's items:
exactly the record built for that bookmark. -/
theorem filterMap_primary_processBookmark (u src : String) (b : XElem)
    (h : (processBookmark u src b).2.2 = none) :
    (processBookmark u src b).1.filterMap primaryRec = [emittedRecord u src b] := by
  obtain ⟨g, hg⟩ := (processBookmark_err_none_iff u src b).mp h
  rw [processBookmark_ok u src b g hg, emittedRecord, okGroups_eq hg]
  simp [primaryRec, bookmarkIconItems, bookmarkAppItems, List.filterMap_map,
    Function.comp_def]

/-- Items of one cleanly processed bookmark: the primary record first,
nothing primary afterwards. -/
theorem processBookmark_head_tail (u src : String) (b : XElem)
    (h : (processBookmark u src b).2.2 = none) :
    (processBookmark u src b).1.head? = some (RUItem.primary (emittedRecord u src b))
  ∧ ∀ i ∈ (processBookmark u src b).1.tail, primaryRec i = none := by
  obtain ⟨g, hg⟩ := (processBookmark_err_none_iff u src b).mp h
  rw [processBookmark_ok u src b g hg, emittedRecord, okGroups_eq hg]
  constructor
  · rfl
  · intro i hi
    simp only [List.tail_cons, List.mem_append, bookmarkIconItems, bookmarkAppItems,
      List.mem_map] at hi
    rcases hi with ⟨x, -, rfl⟩ | ⟨x, -, rfl⟩ <;> rfl

/-- Primary-record projection of the whole loop when every bookmark
processes cleanly: one record per bookmark, in loop order. -/
theorem filterMap_primary_flatMap (u src : String) :
    ∀ bs : List XElem, (∀ b ∈ bs, (processBookmark u src b).2.2 = none) →
      (bs.flatMap fun b => (processBookmark u src b).1).filterMap primaryRec
        = bs.map (emittedRecord u src)
  | [], _ => rfl
  | b :: bs, h => by
    rw [List.flatMap_cons, List.filterMap_append,
      filterMap_primary_processBookmark u src b (h b (List.mem_cons_self b bs)),
      filterMap_primary_flatMap u src bs fun b' hb' => h b' (List.mem_cons_of_mem b hb'),
      List.map_cons]
    rfl

/-- C3, corrected.  The original claim — every well-formed document with
N `bookmark` elements yields exactly N primary records — fails on the
code when a `bookmark:group` element has no text: the `TypeError` of
the group join aborts the generator before that bookmark's primary
record is yielded (see `C3_counterexample`).  Amended: whenever
extraction finishes without an uncaught exception (equivalently,
whenever every group element under the bookmarks has text), the item
stream is the concatenation of the per-bookmark item blocks in document
order of the `bookmark` elements; its primary records are exactly one
per bookmark, in document order; and within each block the primary
record comes first, with nothing primary after it. -/
theorem C3_primary_records (u src : String) (root : XElem)
    (hok : (parse_recently_used_xbel u src (some root)).2.2 = none) :
    (parse_recently_used_xbel u src (some root)).1
      = (iterTag "bookmark" root).flatMap (fun b => (processBookmark u src b).1)
  ∧ (parse_recently_used_xbel u src (some root)).1.filterMap primaryRec
      = (iterTag "bookmark" root).map (emittedRecord u src)
  ∧ ∀ b ∈ iterTag "bookmark" root,
      (processBookmark u src b).1.head? = some (RUItem.primary (emittedRecord u src b))
      ∧ ∀ i ∈ (processBookmark u src b).1.tail, primaryRec i = none := by
  simp only [parse_recently_used_xbel] at hok ⊢
  have hall := runBookmarks_ok_all hok
  have h1 := runBookmarks_eq_flatMap hok
  refine ⟨h1, ?_, ?_⟩
  · rw [h1]
    exact filterMap_primary_flatMap u src (iterTag "bookmark" root) hall
  · intro b hb
    exact processBookmark_head_tail u src b (hall b hb)

/-- Witness for C3 at a concrete document with two bookmarks. -/
theorem C3_primary_records_witness :
    (parse_recently_used_xbel "u" "s" (some sampleDoc)).1.filterMap primaryRec
      = [emittedRecord "u" "s" bm1, emittedRecord "u" "s" bm2] := by
  rw [(C3_primary_records "u" "s" sampleDoc rfl).2.1]
  rfl

/-- C3 counterexample: a well-formed document with two `bookmark`
elements for which the extractor emits only one primary record — the
second bookmark has a textless group element, so the generator dies
before yielding that bookmark's primary record. -/
theorem C3_counterexample :
    (iterTag "bookmark" crashDoc2).length = 2
  ∧ ((parse_recently_used_xbel "u" "s" (some crashDoc2)).1.filterMap
      primaryRec).length = 1 := ⟨rfl, rfl⟩

/-- Two zero-padded decimal digits of `n < 100`. -/
def twoDigits (n : Nat) : List Char := [Char.ofNat (48 + n / 10), Char.ofNat (48 + n % 10)]

/-- Four zero-padded decimal digits of `n < 10000`. -/
def fourDigits (n : Nat) : List Char :=
  [Char.ofNat (48 + n / 1000), Char.ofNat (48 + n / 100 % 10),
   Char.ofNat (48 + n / 10 % 10), Char.ofNat (48 + n % 10)]

/-- Six zero-padded decimal digits of `n < 1000000`. -/
def sixDigits (n : Nat) : List Char :=
  [Char.ofNat (48 + n / 100000), Char.ofNat (48 + n / 10000 % 10),
   Char.ofNat (48 + n / 1000 % 10), Char.ofNat (48 + n / 100 % 10),
   Char.ofNat (48 + n / 10 % 10), Char.ofNat (48 + n % 10)]

/-- The canonical timestamp string `YYYY-MM-DDTHH:MM:SS.ffffffZ` of the
given components — the exact pattern of the specification. -/
def fmtTs (y mo d h mi s us : Nat) : String :=
  ⟨fourDigits y ++ '-' :: (twoDigits mo ++ '-' :: (twoDigits d ++ 'T' ::
    (twoDigits h ++ ':' :: (twoDigits mi ++ ':' ::
      (twoDigits s ++ '.' :: (sixDigits us ++ ['Z']))))))⟩

example : fmtTs 2023 1 2 3 4 5 123456 = "2023-01-02T03:04:05.123456Z" := rfl

/-- The character of a decimal digit is a digit. -/
theorem digitChar_isDig {k : Nat} (hk : k ≤ 9) : isDig (Char.ofNat (48 + k)) = true := by
  interval_cases k <;> decide

/-- The character of a decimal digit has that digit value. -/
theorem digitChar_val {k : Nat} (hk : k ≤ 9) : digitVal (Char.ofNat (48 + k)) = k := by
  interval_cases k <;> decide

/-- Step of `lit` on the matching character. -/
theorem lit_cons (c : Char) (rest : List Char) : lit c (c :: rest) = some rest := by
  simp [lit]

/-- Step of `litT` on `T`. -/
theorem litT_T (rest : List Char) : litT ('T' :: rest) = some rest := by simp [litT]

/-- Step of `litZ` on `Z`. -/
theorem litZ_Z (rest : List Char) : litZ ('Z' :: rest) = some rest := by simp [litZ]

/-- Evaluation of `parseYear` on four zero-padded digits. -/
theorem parseYear_fourDigits (y : Nat) (hy : y ≤ 9999) (rest : List Char) :
    parseYear (fourDigits y ++ rest) = some (y, rest) := by
  have h1 : y / 1000 ≤ 9 := by omega
  have h2 : y / 100 % 10 ≤ 9 := by omega
  have h3 : y / 10 % 10 ≤ 9 := by omega
  have h4 : y % 10 ≤ 9 := by omega
  simp only [fourDigits, List.cons_append, List.nil_append, parseYear]
  rw [if_pos ⟨digitChar_isDig h1, digitChar_isDig h2, digitChar_isDig h3, digitChar_isDig h4⟩]
  rw [digitChar_val h1, digitChar_val h2, digitChar_val h3, digitChar_val h4]
  have : 1000 * (y / 1000) + 100 * (y / 100 % 10) + 10 * (y / 10 % 10) + y % 10 = y := by
    omega
  rw [this]

/-- Evaluation of `parseMonth` on two zero-padded digits of a valid month. -/
theorem parseMonth_twoDigits (mo : Nat) (h1 : 1 ≤ mo) (h2 : mo ≤ 12) (rest : List Char) :
    parseMonth (twoDigits mo ++ rest) = some (mo, rest) := by
  interval_cases mo <;> rfl

/-- Evaluation of `parseDay` on two zero-padded digits of a valid day. -/
theorem parseDay_twoDigits (d : Nat) (h1 : 1 ≤ d) (h2 : d ≤ 31) (rest : List Char) :
    parseDay (twoDigits d ++ rest) = some (d, rest) := by
  interval_cases d <;> rfl

/-- Evaluation of `parseHour` on two zero-padded digits of a valid hour. -/
theorem parseHour_twoDigits (h : Nat) (hh : h ≤ 23) (rest : List Char) :
    parseHour (twoDigits h ++ rest) = some (h, rest) := by
  interval_cases h <;> rfl

/-- Evaluation of `parseMinute` on two zero-padded digits of a valid minute. -/
theorem parseMinute_twoDigits (mi : Nat) (hmi : mi ≤ 59) (rest : List Char) :
    parseMinute (twoDigits mi ++ rest) = some (mi, rest) := by
  interval_cases mi <;> rfl

/-- Evaluation of `parseSecond` on two zero-padded digits of a valid second. -/
theorem parseSecond_twoDigits (s : Nat) (hs : s ≤ 59) (rest : List Char) :
    parseSecond (twoDigits s ++ rest) = some (s, rest) := by
  interval_cases s <;> rfl

/-- Evaluation of `takeFrac` over a block of digits stopped by a
non-digit. -/
theorem takeFrac_digits :
    ∀ (ds : List Char) (acc cnt : Nat), (∀ c ∈ ds, isDig c = true) →
      cnt + ds.length ≤ 6 → ∀ (c : Char) (rest : List Char), isDig c = false →
      takeFrac acc cnt (ds ++ c :: rest) =
        (ds.foldl (fun n ch => 10 * n + digitVal ch) acc, cnt + ds.length, c :: rest)
  | [], acc, cnt, _, _, c, rest, hc => by
    simp only [List.nil_append, List.foldl_nil, List.length_nil, Nat.add_zero]
    rw [takeFrac, if_neg]
    rintro ⟨-, h2⟩
    rw [hc] at h2
    exact Bool.false_ne_true h2
  | d :: ds, acc, cnt, hds, hlen, c, rest, hc => by
    simp only [List.cons_append, List.foldl_cons, List.length_cons]
    rw [takeFrac, if_pos ⟨by simp at hlen; omega, hds d (List.mem_cons_self d ds)⟩]
    rw [takeFrac_digits ds _ (cnt + 1) (fun x hx => hds x (List.mem_cons_of_mem d hx))
      (by simp at hlen; omega) c rest hc]
    have hcnt : cnt + 1 + ds.length = cnt + (ds.length + 1) := by omega
    rw [hcnt]

/-- Evaluation of `parseFrac` on six zero-padded digits followed by a
non-digit. -/
theorem parseFrac_sixDigits (us : Nat) (hus : us ≤ 999999) (c : Char) (rest : List Char)
    (hc : isDig c = false) :
    parseFrac (sixDigits us ++ c :: rest) = some (us, c :: rest) := by
  have h1 : us / 100000 ≤ 9 := by omega
  have h2 : us / 10000 % 10 ≤ 9 := by omega
  have h3 : us / 1000 % 10 ≤ 9 := by omega
  have h4 : us / 100 % 10 ≤ 9 := by omega
  have h5 : us / 10 % 10 ≤ 9 := by omega
  have h6 : us % 10 ≤ 9 := by omega
  have hall : ∀ x ∈ sixDigits us, isDig x = true := by
    simp only [sixDigits, List.mem_cons, List.not_mem_nil, or_false]
    rintro x (rfl | rfl | rfl | rfl | rfl | rfl) <;>
      first
      | exact digitChar_isDig h1
      | exact digitChar_isDig h2
      | exact digitChar_isDig h3
      | exact digitChar_isDig h4
      | exact digitChar_isDig h5
      | exact digitChar_isDig h6
  have hrun := takeFrac_digits (sixDigits us) 0 0 hall (by simp [sixDigits]) c rest hc
  unfold parseFrac
  rw [hrun]
  simp only [sixDigits, List.foldl_cons, List.foldl_nil, List.length_cons,
    List.length_nil]
  rw [digitChar_val h1, digitChar_val h2, digitChar_val h3, digitChar_val h4,
    digitChar_val h5, digitChar_val h6]
  rw [if_pos (by omega)]
  have : (10 * (10 * (10 * (10 * (10 * (10 * 0 + us / 100000) + us / 10000 % 10)
      + us / 1000 % 10) + us / 100 % 10) + us / 10 % 10) + us % 10) = us := by omega
  simp only [this]
  norm_num

/-- C8: for every timestamp string exactly matching the pattern
`YYYY-MM-DDTHH:MM:SS.ffffffZ` (that is, the canonical zero-padded form
of calendar-valid components), `parse_ts` returns the datetime with
exactly those components.  The value is naive and the computation is a
pure function of the string alone — no timezone of the running process
enters (`strptime` without `%z` never consults one), so the instant is
the components read as UTC. -/
theorem C8_exact_pattern_roundtrip (y mo d h mi s us : Nat)
    (hy1 : 1 ≤ y) (hy2 : y ≤ 9999) (hmo1 : 1 ≤ mo) (hmo2 : mo ≤ 12)
    (hd1 : 1 ≤ d) (hd2 : d ≤ daysInMonth y mo) (hh : h ≤ 23) (hmi : mi ≤ 59)
    (hs : s ≤ 59) (hus : us ≤ 999999) :
    parse_ts (some (fmtTs y mo d h mi s us)) = some ⟨y, mo, d, h, mi, s, us⟩ := by
  have hd31 : d ≤ 31 := by
    have : daysInMonth y mo ≤ 31 := by
      unfold daysInMonth
      split
      · split <;> omega
      · split <;> omega
    omega
  show strptime_xbel (fmtTs y mo d h mi s us) = _
  unfold strptime_xbel
  have hdata : (fmtTs y mo d h mi s us).data
      = fourDigits y ++ '-' :: (twoDigits mo ++ '-' :: (twoDigits d ++ 'T' ::
        (twoDigits h ++ ':' :: (twoDigits mi ++ ':' ::
          (twoDigits s ++ '.' :: (sixDigits us ++ ['Z'])))))) := rfl
  rw [hdata, parseYear_fourDigits y hy2]
  simp only [Option.some_bind]
  rw [lit_cons, Option.some_bind, parseMonth_twoDigits mo hmo1 hmo2, Option.some_bind,
    lit_cons, Option.some_bind, parseDay_twoDigits d hd1 hd31, Option.some_bind,
    litT_T, Option.some_bind, parseHour_twoDigits h hh, Option.some_bind,
    lit_cons, Option.some_bind, parseMinute_twoDigits mi hmi, Option.some_bind,
    lit_cons, Option.some_bind, parseSecond_twoDigits s hs, Option.some_bind,
    lit_cons, Option.some_bind, parseFrac_sixDigits us hus 'Z' [] (by decide),
    Option.some_bind, litZ_Z, Option.some_bind]
  rw [if_pos ⟨rfl, hy1, hd2, hs⟩]

/-- Witness for C8 at concrete components. -/
theorem C8_exact_pattern_roundtrip_witness :
    parse_ts (some (fmtTs 2023 1 2 3 4 5 123456)) = some ⟨2023, 1, 2, 3, 4, 5, 123456⟩ :=
  C8_exact_pattern_roundtrip 2023 1 2 3 4 5 123456 (by decide) (by decide) (by decide)
    (by decide) (by decide) (by decide) (by decide) (by decide) (by decide) (by decide)

/-- Digit characters have value at most 9. -/
theorem isDig_val_le {c : Char} (h : isDig c = true) : digitVal c ≤ 9 := by
  unfold isDig at h
  simp only [Bool.and_eq_true, decide_eq_true_eq] at h
  unfold digitVal
  omega

/-- Success of `parseYear` decomposes the input into four digits and the
remainder carrying the year value. -/
theorem parseYear_sound : ∀ {cs rest : List Char} {y : Nat},
    parseYear cs = some (y, rest) →
    ∃ pre, cs = pre ++ rest ∧ pre.length = 4 ∧ (∀ c ∈ pre, isDig c = true) ∧
      digitsVal pre = y := by
  intro cs rest y h
  match cs with
  | [] => simp [parseYear] at h
  | [a] => simp [parseYear] at h
  | [a, b] => simp [parseYear] at h
  | [a, b, c] => simp [parseYear] at h
  | a :: b :: c :: d :: tl =>
    simp only [parseYear] at h
    split at h
    · rename_i hc
      obtain ⟨h1, h2, h3, h4⟩ := hc
      simp only [Option.some.injEq, Prod.mk.injEq] at h
      obtain ⟨hv, rfl⟩ := h
      refine ⟨[a, b, c, d], rfl, rfl, ?_, ?_⟩
      · intro x hx
        simp only [List.mem_cons, List.not_mem_nil, or_false] at hx
        rcases hx with rfl | rfl | rfl | rfl <;> assumption
      · simp only [digitsVal, List.foldl_cons, List.foldl_nil]
        omega
    · exact absurd h (by simp)

/-- Success of `parseMonth` decomposes the input into one or two digits
and the remainder carrying a month value in range. -/
theorem parseMonth_sound : ∀ {cs rest : List Char} {m : Nat},
    parseMonth cs = some (m, rest) →
    ∃ pre, cs = pre ++ rest ∧ 1 ≤ pre.length ∧ pre.length ≤ 2 ∧
      (∀ c ∈ pre, isDig c = true) ∧ digitsVal pre = m ∧ 1 ≤ m ∧ m ≤ 12 := by
  intro cs rest m h
  match cs with
  | [] => simp [parseMonth] at h
  | [a] =>
    simp only [parseMonth] at h
    split at h
    · rename_i hc
      simp only [Option.some.injEq, Prod.mk.injEq] at h
      obtain ⟨hv, rfl⟩ := h
      refine ⟨[a], rfl, by simp, by simp, ?_, ?_, by omega, ?_⟩
      · intro x hx
        simp only [List.mem_cons, List.not_mem_nil, or_false] at hx
        rcases hx with rfl
        exact hc.1
      · simp only [digitsVal, List.foldl_cons, List.foldl_nil]
        omega
      · have := isDig_val_le hc.1
        omega
    · exact absurd h (by simp)
  | a :: b :: tl =>
    simp only [parseMonth] at h
    split at h
    · rename_i hc
      obtain ⟨ha, hb, hb2⟩ := hc
      subst ha
      simp only [Option.some.injEq, Prod.mk.injEq] at h
      obtain ⟨hv, rfl⟩ := h
      refine ⟨['1', b], rfl, by simp, by simp, ?_, ?_, by omega, by omega⟩
      · intro x hx
        simp only [List.mem_cons, List.not_mem_nil, or_false] at hx
        rcases hx with rfl | rfl
        · decide
        · exact hb
      · simp only [digitsVal, List.foldl_cons, List.foldl_nil]
        have : digitVal '1' = 1 := rfl
        omega
    · split at h
      · rename_i hc
        obtain ⟨ha, hb, hb1⟩ := hc
        subst ha
        simp only [Option.some.injEq, Prod.mk.injEq] at h
        obtain ⟨hv, rfl⟩ := h
        have hble := isDig_val_le hb
        refine ⟨['0', b], rfl, by simp, by simp, ?_, ?_, by omega, by omega⟩
        · intro x hx
          simp only [List.mem_cons, List.not_mem_nil, or_false] at hx
          rcases hx with rfl | rfl
          · decide
          · exact hb
        · simp only [digitsVal, List.foldl_cons, List.foldl_nil]
          have : digitVal '0' = 0 := rfl
          omega
      · split at h
        · rename_i hc
          obtain ⟨ha, ha1⟩ := hc
          simp only [Option.some.injEq, Prod.mk.injEq] at h
          obtain ⟨hv, rfl⟩ := h
          have hale := isDig_val_le ha
          refine ⟨[a], rfl, by simp, by simp, ?_, ?_, by omega, by omega⟩
          · intro x hx
            simp only [List.mem_cons, List.not_mem_nil, or_false] at hx
            rcases hx with rfl
            exact ha
          · simp only [digitsVal, List.foldl_cons, List.foldl_nil]
            omega
        · exact absurd h (by simp)

/-- Success of `parseDay` decomposes the input into one or two digits —
or a space followed by a nonzero digit — and the remainder carrying a
positive day value. -/
theorem parseDay_sound : ∀ {cs rest : List Char} {d : Nat},
    parseDay cs = some (d, rest) →
    ∃ pre, cs = pre ++ rest ∧ 1 ≤ pre.length ∧ pre.length ≤ 2 ∧
      ((∀ c ∈ pre, isDig c = true) ∨ ∃ b, pre = [' ', b] ∧ isDig b = true) ∧
      digitsVal pre = d ∧ 1 ≤ d := by
  intro cs rest d h
  match cs with
  | [] => simp [parseDay] at h
  | [a] =>
    simp only [parseDay] at h
    split at h
    · rename_i hc
      simp only [Option.some.injEq, Prod.mk.injEq] at h
      obtain ⟨hv, rfl⟩ := h
      refine ⟨[a], rfl, by simp, by simp, Or.inl ?_, ?_, by omega⟩
      · intro x hx
        simp only [List.mem_cons, List.not_mem_nil, or_false] at hx
        rcases hx with rfl
        exact hc.1
      · simp only [digitsVal, List.foldl_cons, List.foldl_nil]
        omega
    · exact absurd h (by simp)
  | a :: b :: tl =>
    simp only [parseDay] at h
    split at h
    · rename_i hc
      obtain ⟨ha, hb⟩ := hc
      subst ha
      simp only [Option.some.injEq, Prod.mk.injEq] at h
      obtain ⟨hv, rfl⟩ := h
      refine ⟨['3', b], rfl, by simp, by simp, Or.inl ?_, ?_, by omega⟩
      · intro x hx
        simp only [List.mem_cons, List.not_mem_nil, or_false] at hx
        rcases hx with rfl | rfl
        · decide
        · rcases hb with rfl | rfl <;> decide
      · simp only [digitsVal, List.foldl_cons, List.foldl_nil]
        have : digitVal '3' = 3 := rfl
        omega
    · split at h
      · rename_i hc
        obtain ⟨ha, hb⟩ := hc
        simp only [Option.some.injEq, Prod.mk.injEq] at h
        obtain ⟨hv, rfl⟩ := h
        refine ⟨[a, b], rfl, by simp, by simp, Or.inl ?_, ?_, ?_⟩
        · intro x hx
          simp only [List.mem_cons, List.not_mem_nil, or_false] at hx
          rcases hx with rfl | rfl
          · rcases ha with rfl | rfl <;> decide
          · exact hb
        · simp only [digitsVal, List.foldl_cons, List.foldl_nil]
          omega
        · have : 1 ≤ digitVal a := by
            rcases ha with rfl | rfl <;> decide
          omega
      · split at h
        · rename_i hc
          obtain ⟨ha, hb, hb1⟩ := hc
          subst ha
          simp only [Option.some.injEq, Prod.mk.injEq] at h
          obtain ⟨hv, rfl⟩ := h
          refine ⟨['0', b], rfl, by simp, by simp, Or.inl ?_, ?_, by omega⟩
          · intro x hx
            simp only [List.mem_cons, List.not_mem_nil, or_false] at hx
            rcases hx with rfl | rfl
            · decide
            · exact hb
          · simp only [digitsVal, List.foldl_cons, List.foldl_nil]
            have : digitVal '0' = 0 := rfl
            omega
        · split at h
          · rename_i hc
            obtain ⟨ha, ha1⟩ := hc
            simp only [Option.some.injEq, Prod.mk.injEq] at h
            obtain ⟨hv, rfl⟩ := h
            refine ⟨[a], rfl, by simp, by simp, Or.inl ?_, ?_, by omega⟩
            · intro x hx
              simp only [List.mem_cons, List.not_mem_nil, or_false] at hx
              rcases hx with rfl
              exact ha
            · simp only [digitsVal, List.foldl_cons, List.foldl_nil]
              omega
          · split at h
            · rename_i hc
              obtain ⟨ha, hb, hb1⟩ := hc
              subst ha
              simp only [Option.some.injEq, Prod.mk.injEq] at h
              obtain ⟨hv, rfl⟩ := h
              refine ⟨[' ', b], rfl, by simp, by simp, Or.inr ⟨b, rfl, hb⟩, ?_, by omega⟩
              simp only [digitsVal, List.foldl_cons, List.foldl_nil]
              have : digitVal ' ' = 0 := rfl
              omega
            · exact absurd h (by simp)

/-- Success of `parseHour` decomposes the input into one or two digits
and the remainder carrying an hour value of at most 23. -/
theorem parseHour_sound : ∀ {cs rest : List Char} {n : Nat},
    parseHour cs = some (n, rest) →
    ∃ pre, cs = pre ++ rest ∧ 1 ≤ pre.length ∧ pre.length ≤ 2 ∧
      (∀ c ∈ pre, isDig c = true) ∧ digitsVal pre = n ∧ n ≤ 23 := by
  intro cs rest n h
  match cs with
  | [] => simp [parseHour] at h
  | [a] =>
    simp only [parseHour] at h
    split at h
    · rename_i hc
      simp only [Option.some.injEq, Prod.mk.injEq] at h
      obtain ⟨hv, rfl⟩ := h
      have := isDig_val_le hc
      refine ⟨[a], rfl, by simp, by simp, ?_, ?_, by omega⟩
      · intro x hx
        simp only [List.mem_cons, List.not_mem_nil, or_false] at hx
        rcases hx with rfl
        exact hc
      · simp only [digitsVal, List.foldl_cons, List.foldl_nil]
        omega
    · exact absurd h (by simp)
  | a :: b :: tl =>
    simp only [parseHour] at h
    split at h
    · rename_i hc
      obtain ⟨ha, hb, hb3⟩ := hc
      subst ha
      simp only [Option.some.injEq, Prod.mk.injEq] at h
      obtain ⟨hv, rfl⟩ := h
      refine ⟨['2', b], rfl, by simp, by simp, ?_, ?_, by omega⟩
      · intro x hx
        simp only [List.mem_cons, List.not_mem_nil, or_false] at hx
        rcases hx with rfl | rfl
        · decide
        · exact hb
      · simp only [digitsVal, List.foldl_cons, List.foldl_nil]
        have : digitVal '2' = 2 := rfl
        omega
    · split at h
      · rename_i hc
        obtain ⟨ha, hb⟩ := hc
        simp only [Option.some.injEq, Prod.mk.injEq] at h
        obtain ⟨hv, rfl⟩ := h
        have hble := isDig_val_le hb
        have hava : digitVal a ≤ 1 := by
          rcases ha with rfl | rfl <;> decide
        refine ⟨[a, b], rfl, by simp, by simp, ?_, ?_, by omega⟩
        · intro x hx
          simp only [List.mem_cons, List.not_mem_nil, or_false] at hx
          rcases hx with rfl | rfl
          · rcases ha with rfl | rfl <;> decide
          · exact hb
        · simp only [digitsVal, List.foldl_cons, List.foldl_nil]
          omega
      · split at h
        · rename_i hc
          simp only [Option.some.injEq, Prod.mk.injEq] at h
          obtain ⟨hv, rfl⟩ := h
          have := isDig_val_le hc
          refine ⟨[a], rfl, by simp, by simp, ?_, ?_, by omega⟩
          · intro x hx
            simp only [List.mem_cons, List.not_mem_nil, or_false] at hx
            rcases hx with rfl
            exact hc
          · simp only [digitsVal, List.foldl_cons, List.foldl_nil]
            omega
        · exact absurd h (by simp)

/-- Success of `parseMinute` decomposes the input into one or two digits
and the remainder carrying a minute value of at most 59. -/
theorem parseMinute_sound : ∀ {cs rest : List Char} {n : Nat},
    parseMinute cs = some (n, rest) →
    ∃ pre, cs = pre ++ rest ∧ 1 ≤ pre.length ∧ pre.length ≤ 2 ∧
      (∀ c ∈ pre, isDig c = true) ∧ digitsVal pre = n ∧ n ≤ 59 := by
  intro cs rest n h
  match cs with
  | [] => simp [parseMinute] at h
  | [a] =>
    simp only [parseMinute] at h
    split at h
    · rename_i hc
      simp only [Option.some.injEq, Prod.mk.injEq] at h
      obtain ⟨hv, rfl⟩ := h
      have := isDig_val_le hc
      refine ⟨[a], rfl, by simp, by simp, ?_, ?_, by omega⟩
      · intro x hx
        simp only [List.mem_cons, List.not_mem_nil, or_false] at hx
        rcases hx with rfl
        exact hc
      · simp only [digitsVal, List.foldl_cons, List.foldl_nil]
        omega
    · exact absurd h (by simp)
  | a :: b :: tl =>
    simp only [parseMinute] at h
    split at h
    · rename_i hc
      obtain ⟨ha, ha5, hb⟩ := hc
      simp only [Option.some.injEq, Prod.mk.injEq] at h
      obtain ⟨hv, rfl⟩ := h
      have hble := isDig_val_le hb
      refine ⟨[a, b], rfl, by simp, by simp, ?_, ?_, by omega⟩
      · intro x hx
        simp only [List.mem_cons, List.not_mem_nil, or_false] at hx
        rcases hx with rfl | rfl
        · exact ha
        · exact hb
      · simp only [digitsVal, List.foldl_cons, List.foldl_nil]
        omega
    · split at h
      · rename_i hc
        simp only [Option.some.injEq, Prod.mk.injEq] at h
        obtain ⟨hv, rfl⟩ := h
        have := isDig_val_le hc
        refine ⟨[a], rfl, by simp, by simp, ?_, ?_, by omega⟩
        · intro x hx
          simp only [List.mem_cons, List.not_mem_nil, or_false] at hx
          rcases hx with rfl
          exact hc
        · simp only [digitsVal, List.foldl_cons, List.foldl_nil]
          omega
      · exact absurd h (by simp)

/-- Success of `parseSecond` decomposes the input into one or two digits
and the remainder carrying the seconds value (up to 61 at this stage). -/
theorem parseSecond_sound : ∀ {cs rest : List Char} {n : Nat},
    parseSecond cs = some (n, rest) →
    ∃ pre, cs = pre ++ rest ∧ 1 ≤ pre.length ∧ pre.length ≤ 2 ∧
      (∀ c ∈ pre, isDig c = true) ∧ digitsVal pre = n := by
  intro cs rest n h
  match cs with
  | [] => simp [parseSecond] at h
  | [a] =>
    simp only [parseSecond] at h
    split at h
    · rename_i hc
      simp only [Option.some.injEq, Prod.mk.injEq] at h
      obtain ⟨hv, rfl⟩ := h
      refine ⟨[a], rfl, by simp, by simp, ?_, ?_⟩
      · intro x hx
        simp only [List.mem_cons, List.not_mem_nil, or_false] at hx
        rcases hx with rfl
        exact hc
      · simp only [digitsVal, List.foldl_cons, List.foldl_nil]
        omega
    · exact absurd h (by simp)
  | a :: b :: tl =>
    simp only [parseSecond] at h
    split at h
    · rename_i hc
      obtain ⟨ha, hb, hb1⟩ := hc
      subst ha
      simp only [Option.some.injEq, Prod.mk.injEq] at h
      obtain ⟨hv, rfl⟩ := h
      refine ⟨['6', b], rfl, by simp, by simp, ?_, ?_⟩
      · intro x hx
        simp only [List.mem_cons, List.not_mem_nil, or_false] at hx
        rcases hx with rfl | rfl
        · decide
        · exact hb
      · simp only [digitsVal, List.foldl_cons, List.foldl_nil]
        have : digitVal '6' = 6 := rfl
        omega
    · split at h
      · rename_i hc
        obtain ⟨ha, ha5, hb⟩ := hc
        simp only [Option.some.injEq, Prod.mk.injEq] at h
        obtain ⟨hv, rfl⟩ := h
        refine ⟨[a, b], rfl, by simp, by simp, ?_, ?_⟩
        · intro x hx
          simp only [List.mem_cons, List.not_mem_nil, or_false] at hx
          rcases hx with rfl | rfl
          · exact ha
          · exact hb
        · simp only [digitsVal, List.foldl_cons, List.foldl_nil]
          omega
      · split at h
        · rename_i hc
          simp only [Option.some.injEq, Prod.mk.injEq] at h
          obtain ⟨hv, rfl⟩ := h
          refine ⟨[a], rfl, by simp, by simp, ?_, ?_⟩
          · intro x hx
            simp only [List.mem_cons, List.not_mem_nil, or_false] at hx
            rcases hx with rfl
            exact hc
          · simp only [digitsVal, List.foldl_cons, List.foldl_nil]
            omega
        · exact absurd h (by simp)

/-- Run of `takeFrac` splits off a digit prefix and counts it. -/
theorem takeFrac_sound : ∀ (cs : List Char) (acc cnt : Nat) {n cnt' : Nat}
    {rest : List Char}, takeFrac acc cnt cs = (n, cnt', rest) → cnt ≤ 6 →
    ∃ pre, cs = pre ++ rest ∧ (∀ c ∈ pre, isDig c = true) ∧
      cnt' = cnt + pre.length ∧ cnt' ≤ 6
  | [], acc, cnt, n, cnt', rest, h, hle => by
    simp only [takeFrac, Prod.mk.injEq] at h
    obtain ⟨-, h2, h3⟩ := h
    exact ⟨[], by simp [← h3], by simp, by simp only [List.length_nil]; omega, by omega⟩
  | c :: cs, acc, cnt, n, cnt', rest, h, hle => by
    simp only [takeFrac] at h
    split at h
    · rename_i hc
      obtain ⟨pre, heq, hdig, hcnt, hle'⟩ := takeFrac_sound cs _ (cnt + 1) h (by omega)
      refine ⟨c :: pre, by simp [heq], ?_, ?_, hle'⟩
      · intro x hx
        rcases List.mem_cons.mp hx with rfl | hx
        · exact hc.2
        · exact hdig x hx
      · simp only [List.length_cons]
        omega
    · simp only [Prod.mk.injEq] at h
      obtain ⟨-, h2, h3⟩ := h
      exact ⟨[], by simp [← h3], by simp, by simp only [List.length_nil]; omega, by omega⟩

/-- Success of `parseFrac` decomposes the input into one to six digits
and the remainder. -/
theorem parseFrac_sound {cs rest : List Char} {us : Nat}
    (h : parseFrac cs = some (us, rest)) :
    ∃ pre, cs = pre ++ rest ∧ 1 ≤ pre.length ∧ pre.length ≤ 6 ∧
      ∀ c ∈ pre, isDig c = true := by
  unfold parseFrac at h
  rcases hr : takeFrac 0 0 cs with ⟨n, cnt, rest'⟩
  rw [hr] at h
  simp only at h
  split at h
  · rename_i hcnt1
    simp only [Option.some.injEq, Prod.mk.injEq] at h
    obtain ⟨-, rfl⟩ := h
    obtain ⟨pre, heq, hdig, hcnt, hle⟩ := takeFrac_sound cs 0 0 hr (by omega)
    exact ⟨pre, heq, by omega, by omega, hdig⟩
  · exact absurd h (by simp)

/-- Success of `lit` means the input starts with that very character. -/
theorem lit_sound {c : Char} {cs rest : List Char} (h : lit c cs = some rest) :
    cs = c :: rest := by
  match cs with
  | [] => simp [lit] at h
  | d :: tl =>
    simp only [lit] at h
    split at h
    · rename_i hd
      subst hd
      simp only [Option.some.injEq] at h
      rw [h]
    · exact absurd h (by simp)

/-- Success of `litT` means the input starts with `T` or `t`. -/
theorem litT_sound {cs rest : List Char} (h : litT cs = some rest) :
    ∃ tc, cs = tc :: rest ∧ (tc = 'T' ∨ tc = 't') := by
  match cs with
  | [] => simp [litT] at h
  | d :: tl =>
    simp only [litT] at h
    split at h
    · rename_i hd
      simp only [Option.some.injEq] at h
      exact ⟨d, by rw [h], hd⟩
    · exact absurd h (by simp)

/-- Success of `litZ` means the input starts with `Z` or `z`. -/
theorem litZ_sound {cs rest : List Char} (h : litZ cs = some rest) :
    ∃ zc, cs = zc :: rest ∧ (zc = 'Z' ∨ zc = 'z') := by
  match cs with
  | [] => simp [litZ] at h
  | d :: tl =>
    simp only [litZ] at h
    split at h
    · rename_i hd
      simp only [Option.some.injEq] at h
      exact ⟨d, by rw [h], hd⟩
    · exact absurd h (by simp)

/-- Shape of the timestamp strings accepted by the flexible format
(stated from the amended claim's words): a four-digit year, then
one-or-two-digit month, hour, minute and second fields in valid
ranges, a day field that is one or two digits or a space followed by
a nonzero digit (the space-padded `%d` alternative), a calendar-valid
date, a fractional part of one to six digits, separated by the
literals `-`, `-`, `T`/`t`, `:`, `:`, `.` and terminated by `Z`/`z`,
with nothing else in the string.  (For the space-padded day
`digitsVal [' ', b]` equals `digitVal b`, since `digitVal ' '` is `0`,
so the day range constraint reads uniformly.) -/
def FlexShape (s : String) : Prop :=
  ∃ (ys ms dls hls mils sls fls : List Char) (tc zc : Char),
    s.data = ys ++ '-' :: (ms ++ '-' :: (dls ++ tc :: (hls ++ ':' :: (mils ++ ':' ::
      (sls ++ '.' :: (fls ++ [zc])))))) ∧
    (tc = 'T' ∨ tc = 't') ∧ (zc = 'Z' ∨ zc = 'z') ∧
    ys.length = 4 ∧ 1 ≤ ms.length ∧ ms.length ≤ 2 ∧ 1 ≤ dls.length ∧ dls.length ≤ 2 ∧
    1 ≤ hls.length ∧ hls.length ≤ 2 ∧ 1 ≤ mils.length ∧ mils.length ≤ 2 ∧
    1 ≤ sls.length ∧ sls.length ≤ 2 ∧ 1 ≤ fls.length ∧ fls.length ≤ 6 ∧
    (∀ c ∈ ys ++ ms ++ hls ++ mils ++ sls ++ fls, isDig c = true) ∧
    ((∀ c ∈ dls, isDig c = true) ∨ ∃ b, dls = [' ', b] ∧ isDig b = true) ∧
    1 ≤ digitsVal ys ∧ 1 ≤ digitsVal ms ∧ digitsVal ms ≤ 12 ∧ 1 ≤ digitsVal dls ∧
    digitsVal dls ≤ daysInMonth (digitsVal ys) (digitsVal ms) ∧
    digitsVal hls ≤ 23 ∧ digitsVal mils ≤ 59 ∧ digitsVal sls ≤ 59

/-- Every string `strptime` accepts has the flexible shape. -/
theorem strptime_sound {s : String} {dt : PyDateTime}
    (h : strptime_xbel s = some dt) : FlexShape s := by
  unfold strptime_xbel at h
  simp only [Option.bind_eq_some] at h
  obtain ⟨⟨y, r1⟩, hy, h⟩ := h
  obtain ⟨r2, hl1, h⟩ := h
  obtain ⟨⟨mo, r3⟩, hmo, h⟩ := h
  obtain ⟨r4, hl2, h⟩ := h
  obtain ⟨⟨d, r5⟩, hd, h⟩ := h
  obtain ⟨r6, hT, h⟩ := h
  obtain ⟨⟨ho, r7⟩, hho, h⟩ := h
  obtain ⟨r8, hl3, h⟩ := h
  obtain ⟨⟨mi, r9⟩, hmi, h⟩ := h
  obtain ⟨r10, hl4, h⟩ := h
  obtain ⟨⟨se, r11⟩, hse, h⟩ := h
  obtain ⟨r12, hl5, h⟩ := h
  obtain ⟨⟨us, r13⟩, hus, h⟩ := h
  obtain ⟨r14, hZ, h⟩ := h
  split at h
  · rename_i hcond
    replace hcond : r14 = [] ∧ 1 ≤ y ∧ d ≤ daysInMonth y mo ∧ se ≤ 59 := hcond
    obtain ⟨hr14, hy1, hdmax, hs59⟩ := hcond
    subst hr14
    obtain ⟨ys, hyeq, hylen, hydig, hyval⟩ := parseYear_sound hy
    have hr1 : r1 = '-' :: r2 := lit_sound hl1
    obtain ⟨ms, hmeq, hmlen1, hmlen2, hmdig, hmval, hm1, hm12⟩ := parseMonth_sound hmo
    have hr3 : r3 = '-' :: r4 := lit_sound hl2
    obtain ⟨dls, hdeq, hdlen1, hdlen2, hddig, hdval, hd1⟩ := parseDay_sound hd
    have hT' : ∃ tc, r5 = tc :: r6 ∧ (tc = 'T' ∨ tc = 't') := litT_sound hT
    obtain ⟨tc, hr5, htc⟩ := hT'
    obtain ⟨hls, hheq, hhlen1, hhlen2, hhdig, hhval, hh23⟩ := parseHour_sound hho
    have hr7 : r7 = ':' :: r8 := lit_sound hl3
    obtain ⟨mils, hmieq, hmilen1, hmilen2, hmidig, hmival, hmi59⟩ := parseMinute_sound hmi
    have hr9 : r9 = ':' :: r10 := lit_sound hl4
    obtain ⟨sls, hseq, hslen1, hslen2, hsdig, hsval⟩ := parseSecond_sound hse
    have hr11 : r11 = '.' :: r12 := lit_sound hl5
    obtain ⟨fls, hfeq, hflen1, hflen2, hfdig⟩ := parseFrac_sound hus
    have hZ' : ∃ zc, r13 = zc :: [] ∧ (zc = 'Z' ∨ zc = 'z') := litZ_sound hZ
    obtain ⟨zc, hr13, hzc⟩ := hZ'
    refine ⟨ys, ms, dls, hls, mils, sls, fls, tc, zc, ?_, htc, hzc, hylen,
      hmlen1, hmlen2, hdlen1, hdlen2, hhlen1, hhlen2, hmilen1, hmilen2,
      hslen1, hslen2, hflen1, hflen2, ?_, hddig, ?_, ?_, ?_, ?_, ?_, ?_, ?_, ?_⟩
    · rw [hyeq, hr1, hmeq, hr3, hdeq, hr5, hheq, hr7, hmieq, hr9, hseq, hr11,
        hfeq, hr13]
    · intro x hx
      simp only [List.mem_append] at hx
      rcases hx with (((((hx | hx) | hx) | hx) | hx) | hx)
      exacts [hydig x hx, hmdig x hx, hhdig x hx, hmidig x hx,
        hsdig x hx, hfdig x hx]
    · rw [hyval]; exact hy1
    · rw [hmval]; exact hm1
    · rw [hmval]; exact hm12
    · rw [hdval]; exact hd1
    · rw [hdval, hyval, hmval]; exact hdmax
    · rw [hhval]; exact hh23
    · rw [hmival]; exact hmi59
    · rw [hsval]; exact hs59
  · exact absurd h (by simp)

/-- Recognizer of the exact pattern the claim states:
`YYYY-MM-DDTHH:MM:SS.ffffffZ`, i.e. 27 characters with four year
digits, two digits in every other numeric field, exactly six
fractional-second digits and a literal trailing `Z`. -/
def strictMatch (s : String) : Bool :=
  match s.data with
  | [y1, y2, y3, y4, p1, m1, m2, p2, d1, d2, t, h1, h2, q1, mi1, mi2, q2, s1, s2, dot,
     f1, f2, f3, f4, f5, f6, z] =>
    isDig y1 && isDig y2 && isDig y3 && isDig y4 && (p1 == '-') && isDig m1 && isDig m2 &&
    (p2 == '-') && isDig d1 && isDig d2 && (t == 'T') && isDig h1 && isDig h2 &&
    (q1 == ':') && isDig mi1 && isDig mi2 && (q2 == ':') && isDig s1 && isDig s2 &&
    (dot == '.') && isDig f1 && isDig f2 && isDig f3 && isDig f4 && isDig f5 && isDig f6 &&
    (z == 'Z')
  | _ => false

example : strictMatch "2023-01-02T03:04:05.123456Z" = true := rfl
example : strictMatch "2023-01-02T03:04:05.1Z" = false := rfl

/-- C2 counterexample: the claim states that every timestamp string not
matching the exact pattern `YYYY-MM-DDTHH:MM:SS.ffffffZ` (in
particular, wrong fractional digit counts) makes `parse_ts` return
`None`.  The string `2023-01-02T03:04:05.1Z` has a one-digit
fractional part, so it does not match the exact pattern, yet the code
parses it: `strptime`'s `%f` accepts one to six digits and zero-pads
them to microseconds. -/
theorem C2_counterexample :
    strictMatch "2023-01-02T03:04:05.1Z" = false
  ∧ parse_ts (some "2023-01-02T03:04:05.1Z") = some ⟨2023, 1, 2, 3, 4, 5, 100000⟩ :=
  ⟨rfl, rfl⟩

/-- Strings entirely of ASCII characters: the domain on which this
embedding of `strptime` is exact.  Outside it, `\d` compiled without
`re.ASCII` also matches other Unicode decimal digits (which `int()`
converts), a behavior this model does not enumerate. -/
def AsciiOnly (s : String) : Prop := ∀ c ∈ s.data, c.toNat < 128

/-- C2, corrected.  The original claim fails because `strptime`'s
format is more permissive than the claimed exact pattern (see
`C2_counterexample`).  Amended, over ASCII input: `parse_ts` maps
`None` to `None`, and it maps to `None` every ASCII string outside
the flexible shape `FlexShape` — four year digits; month, hour,
minute and second fields of one or two digits; a day field of one or
two digits or a space followed by a nonzero digit (the space-padded
`%d` alternative); one to six fractional digits; case-insensitive `T`
and `Z`; calendar-valid field values.  This covers in particular
`None`, the empty string, missing fractional seconds and a missing
trailing `Z`/`z`.  It never raises: the `ValueError` of `strptime` is
caught and collapsed to `None`, which the totality of this function
models.  The `AsciiOnly` hypothesis scopes the statement to the
domain on which the `strptime` embedding is exact; the proof over the
model does not consume it, but without it the statement would claim
more than the model is faithful to, since `\d` without `re.ASCII`
also accepts non-ASCII Unicode decimal digits (e.g. an Arabic-Indic
hour digit), which are outside `FlexShape` yet parsed by CPython. -/
theorem C2_unmatched_to_none :
    parse_ts none = none ∧
    ∀ s : String, AsciiOnly s → ¬ FlexShape s → parse_ts (some s) = none := by
  refine ⟨rfl, fun s _ hs => ?_⟩
  show strptime_xbel s = none
  cases h : strptime_xbel s with
  | none => rfl
  | some dt => exact absurd (strptime_sound h) hs

/-- Witness for C2 at the empty string, which is ASCII and has no
flexible shape (its character list is too short to carry the
pattern). -/
theorem C2_unmatched_to_none_witness : parse_ts (some "") = none := by
  have hnil : ("" : String).data = [] := rfl
  have hascii : AsciiOnly "" := by
    intro c hc
    rw [hnil] at hc
    exact absurd hc (List.not_mem_nil c)
  refine C2_unmatched_to_none.2 "" hascii ?_
  rintro ⟨ys, ms, dls, hls, mils, sls, fls, tc, zc, heq, -⟩
  rw [hnil] at heq
  have hlen := congrArg List.length heq
  simp only [List.length_nil, List.length_append, List.length_cons] at hlen
  omega
